import Mathlib

/-!
Shallow embedding of the category-mapping and rename-planning core of the
pyfwg repository (file pyfwg_v10.py, class MorphingWorkflow), together with
models of the Python standard-library string and path helpers the code calls.
Filesystem access (os.path.exists) and the regular-expression engine
(re.search(...).groupdict()) are external collaborators and are modelled as
oracles supplied to the functions that consult them.
-/

namespace Pyfwg

/-- A Python dict with string keys, modelled as an insertion-ordered
association list whose keys are kept distinct by dinsert. -/
abbrev Dict (α : Type) := List (String × α)

/-- Lookup in a dict: value of the first (hence, with dinsert, the only)
entry with the given key.  Models d.get(k) / d[k]. -/
def dlookup {α : Type} : Dict α → String → Option α
  | [], _ => none
  | p :: rest, k => if p.1 = k then some p.2 else dlookup rest k

/-- Python dict assignment d[k] = v: overwrite in place if k is present,
append at the end otherwise. -/
def dinsert {α : Type} (k : String) (v : α) : Dict α → Dict α
  | [] => [(k, v)]
  | p :: rest => if p.1 = k then (k, v) :: rest else p :: dinsert k v rest

/-- Python dict merge expression with two dicts, as in the source's
all_mapped_files = a-merged-with-b: entries of e are inserted into d in
order, overwriting equal keys. -/
def dmerge {α : Type} (d e : Dict α) : Dict α :=
  e.foldl (fun acc p => dinsert p.1 p.2 acc) d

/-- Python substring test (needle in hay) on character lists. -/
def listContainsSub (needle : List Char) : List Char → Bool
  | [] => needle.isEmpty
  | c :: rest => needle.isPrefixOf (c :: rest) || listContainsSub needle rest

/-- Model of str.lower(), restricted to ASCII case conversion. -/
def strLower (s : String) : String := String.mk (s.data.map Char.toLower)

/-- Model of str.endswith(suffix). -/
def strEndsWith (s suffix : String) : Bool := suffix.data.isSuffixOf s.data

/-- Index of the last occurrence of a character in a list, as in
str.rfind for a single-character needle. -/
def rfindIdx (c : Char) (cs : List Char) : Option Nat :=
  match cs.reverse.findIdx? (fun d => d = c) with
  | none => none
  | some j => some (cs.length - 1 - j)

/-- Model of posixpath.basename: everything after the last slash. -/
def basename (p : String) : String :=
  match rfindIdx '/' p.data with
  | none => p
  | some i => String.mk (p.data.drop (i + 1))

/-- Model of posixpath.splitext (CPython genericpath, sep = slash): split at
the last dot, provided it lies after the last slash and at least one
non-dot character stands between them. -/
def splitext (p : String) : String × String :=
  let cs := p.data
  let sepIdx : Int := match rfindIdx '/' cs with | none => -1 | some i => (i : Int)
  match rfindIdx '.' cs with
  | none => (p, "")
  | some d =>
    if sepIdx < (d : Int) then
      let between := (cs.take d).drop (sepIdx + 1).toNat
      if between.any (fun c => c ≠ '.') then
        (String.mk (cs.take d), String.mk (cs.drop d))
      else (p, "")
    else (p, "")

/-- Model of posixpath.join for two components. -/
def osJoin (a b : String) : String :=
  if b.data.head? = some '/' then b
  else if a.data.isEmpty then b
  else if a.data.getLast? = some '/' then a ++ b
  else a ++ "/" ++ b

/-- Model of posixpath.abspath relative to a current working directory,
without the final normpath simplification. -/
def abspath (cwd p : String) : String :=
  if p.data.head? = some '/' then p else osJoin cwd p

/-- Fuel-indexed worker for replaceAll. -/
def replaceAux (pat repl : List Char) : Nat → List Char → List Char
  | 0, cs => cs
  | _, [] => []
  | fuel + 1, c :: rest =>
    if pat.isPrefixOf (c :: rest) then
      repl ++ replaceAux pat repl fuel ((c :: rest).drop pat.length)
    else c :: replaceAux pat repl fuel rest

/-- Model of str.replace(pat, repl) for a nonempty pattern: replace all
non-overlapping occurrences left to right. -/
def replaceAll (s pat repl : String) : String :=
  String.mk (replaceAux pat.data repl.data s.data.length s.data)

-- Constants for FWG output (pyfwg_v10.py lines 16-17)

def ALL_POSSIBLE_SCENARIOS : List String := ["ssp126", "ssp245", "ssp370", "ssp585"]

def ALL_POSSIBLE_YEARS : List Nat := [2050, 2080]

-- Default GCMs list (pyfwg_v10.py lines 20-26)

def DEFAULT_GCMS : List String :=
  ["BCC_CSM2_MR", "CanESM5", "CanESM5_1", "CanESM5_CanOE", "CAS_ESM2_0",
   "CMCC_ESM2", "CNRM_CM6_1", "CNRM_CM6_1_HR", "CNRM_ESM2_1", "EC_Earth3",
   "EC_Earth3_Veg", "EC_Earth3_Veg_LR", "FGOALS_g3", "GFDL_ESM4",
   "GISS_E2_1_G", "GISS_E2_1_H", "GISS_E2_2_G", "IPSL_CM6A_LR",
   "MIROC_ES2H", "MIROC_ES2L", "MIROC6", "MRI_ESM2_0", "UKESM1_0_LL"]

-- ---------------------------------------------------------------------------
-- STEP 1: map_categories (pyfwg_v10.py lines 40-117)
-- ---------------------------------------------------------------------------

/-- keyword_mapping: category -> (canonical value -> list of keywords),
insertion ordered as a Python dict of dicts. -/
abbrev KeywordMapping := List (String × List (String × List String))

/-- Oracles for the external collaborators consulted by map_categories:
os.path.exists, and re.search(pattern, s) returning the groupdict of the
match (group name -> captured text, none for a non-participating group)
or none when the pattern does not match. -/
structure FsOracle where
  pathExists : String → Bool
  reSearch : String → String → Option (List (String × Option String))

/-- Python truthiness of an optional string argument (absent or empty
means falsy). -/
def optStrTruthy : Option String → Bool
  | none => false
  | some s => !s.data.isEmpty

/-- Python truthiness of an optional keyword_mapping argument (absent or
empty dict means falsy). -/
def optKmTruthy : Option KeywordMapping → Bool
  | none => false
  | some l => !l.isEmpty

/-- Whether one canonical value's keyword list has a case-insensitive
substring hit in the (already lowered) filename: the source's
any(keyword.lower() in epw_name_lower for keyword in keywords). -/
def keywordHit (nameLower : String) (vk : String × List String) : Bool :=
  vk.2.any (fun k => listContainsSub (strLower k).data nameLower.data)

/-- First canonical value, in configuration enumeration order, with a
keyword hit; the source's inner for-loop with break (lines 95-98). -/
def firstHit (nameLower : String) : List (String × List String) → Option String
  | [] => none
  | vk :: rest => if keywordHit nameLower vk then some vk.1 else firstHit nameLower rest

/-- Mode 2, keyword-only search (lines 91-98): for every category in
enumeration order, assign the first canonical value with a hit. -/
def keywordExtract (name : String) (rules : KeywordMapping) : Dict String :=
  rules.foldl
    (fun acc cr =>
      match firstHit (strLower name) cr.2 with
      | some v => dinsert cr.1 v acc
      | none => acc)
    []

/-- Normalization of one raw captured value (lines 81-87): if the mapping
has rules for this category and some canonical value lists a keyword equal,
case-insensitively, to the raw value, the first such canonical value wins;
otherwise the raw value passes through. -/
def normalizeValue (km : Option KeywordMapping) (category raw : String) : String :=
  match km with
  | none => raw
  | some rules =>
    match dlookup rules category with
    | none => raw
    | some vks =>
      match vks.find? (fun vk => (vk.2.map strLower).contains (strLower raw)) with
      | none => raw
      | some vk => vk.1

/-- Mode 1 post-processing of a groupdict (lines 75-89): skip groups that
did not participate, normalize the rest. -/
def normalizeGroups (km : Option KeywordMapping) (gd : List (String × Option String)) :
    Dict String :=
  gd.foldl
    (fun acc p =>
      match p.2 with
      | none => acc
      | some raw => dinsert p.1 (normalizeValue km p.1 raw) acc)
    []

/-- file_categories computed for one file (lines 65-98): pattern mode when
the pattern argument is truthy, else keyword mode when that argument is
truthy; empty when the pattern does not match or nothing is found. -/
def extractedCategories (fs : FsOracle) (pattern : Option String)
    (km : Option KeywordMapping) (path : String) : Dict String :=
  if optStrTruthy pattern then
    match fs.reSearch (pattern.getD "") (splitext (basename path)).1 with
    | none => []
    | some gd => normalizeGroups km gd
  else if optKmTruthy km then
    keywordExtract (basename path) (km.getD [])
  else []

/-- The missing-categories set the source logs for an incomplete keyword
mapping (line 107): all_defined_categories - found_categories. -/
def missingCategories (rules : KeywordMapping) (m : Dict String) : Finset String :=
  (rules.map Prod.fst).toFinset \ (m.map Prod.fst).toFinset

/-- The per-file body of the map_categories loop (lines 60-115), updating
the pair (epw_categories, incomplete_epw_categories): skip files that do
not exist, skip files with no extracted categories, check completeness in
keyword-only mode, otherwise record as complete. -/
def processFile (fs : FsOracle) (pattern : Option String) (km : Option KeywordMapping)
    (st : Dict (Dict String) × Dict (Dict String)) (path : String) :
    Dict (Dict String) × Dict (Dict String) :=
  if !fs.pathExists path then st
  else
    let fc := extractedCategories fs pattern km path
    if fc.isEmpty then st
    else if optKmTruthy km && !optStrTruthy pattern then
      if (fc.map Prod.fst).toFinset.card < ((km.getD []).map Prod.fst).toFinset.card then
        (st.1, dinsert path fc st.2)
      else (dinsert path fc st.1, st.2)
    else (dinsert path fc st.1, st.2)

/-- STEP 1, map_categories (lines 40-117): configuration check, then the
loop over epw_files rebuilding the two category stores from empty. -/
def map_categories (fs : FsOracle) (epw_files : List String)
    (input_filename_pattern : Option String) (keyword_mapping : Option KeywordMapping) :
    Except String (Dict (Dict String) × Dict (Dict String)) :=
  if !optStrTruthy input_filename_pattern && !optKmTruthy keyword_mapping then
    .error "You must provide at least one mapping method: input_filename_pattern or keyword_mapping."
  else
    .ok (epw_files.foldl (processFile fs input_filename_pattern keyword_mapping) ([], []))

/-- Spec-side classification of a single path, used to state invariants:
none when the file is recorded nowhere, some true when it goes to the
complete store, some false when it goes to the incomplete store. -/
def classification (fs : FsOracle) (pattern : Option String) (km : Option KeywordMapping)
    (path : String) : Option Bool :=
  if !fs.pathExists path then none
  else
    let fc := extractedCategories fs pattern km path
    if fc.isEmpty then none
    else if optKmTruthy km && !optStrTruthy pattern then
      if (fc.map Prod.fst).toFinset.card < ((km.getD []).map Prod.fst).toFinset.card then
        some false
      else some true
    else some true

-- ---------------------------------------------------------------------------
-- STEP 2: preview_rename_plan (pyfwg_v10.py lines 119-149)
-- ---------------------------------------------------------------------------

/-- Fuel-indexed worker for findPlaceholders, mirroring how re.findall with
the lazy brace pattern scans: at an opening brace, a match extends to the
first closing brace provided no newline stands in between (the dot does not
match newlines); on failure the scan resumes one character further. -/
def findPhAux (fuel : Nat) (cs : List Char) : List String :=
  match fuel, cs with
  | 0, _ => []
  | _ + 1, [] => []
  | fuel + 1, c :: rest =>
    if c = '{' then
      match rest.dropWhile (fun d => d ≠ '}') with
      | _ :: rest2 =>
        let seg := rest.takeWhile (fun d => d ≠ '}')
        if seg.contains '\n' then findPhAux fuel rest
        else String.mk seg :: findPhAux fuel rest2
      | [] => findPhAux fuel rest
    else findPhAux fuel rest

/-- Model of re.findall of the lazy brace-capture pattern over the output
filename pattern (line 129). -/
def findPlaceholders (t : String) : List String := findPhAux t.data.length t.data

/-- auto_placeholders (line 130). -/
def autoPlaceholders : Finset String := {"scenario", "ssp_full_name", "year"}

/-- required_from_mapping (lines 129-131): placeholders of the template
minus the auto-supplied names, as a set. -/
def requiredFromMapping (t : String) : Finset String :=
  (findPlaceholders t).toFinset \ autoPlaceholders

/-- missing_keys for one file (line 138): required_from_mapping minus the
keys of the file's category mapping. -/
def missingOf (t : String) (mapped : Dict String) : Finset String :=
  requiredFromMapping t \ (mapped.map Prod.fst).toFinset

/-- Fuel-indexed worker for renderTemplate. -/
def renderAux (lookup : String → String) (fuel : Nat) (cs : List Char) : List Char :=
  match fuel, cs with
  | 0, rest => rest
  | _ + 1, [] => []
  | fuel + 1, c :: rest =>
    if c = '{' then
      match rest.dropWhile (fun d => d ≠ '}') with
      | _ :: rest2 =>
        (lookup (String.mk (rest.takeWhile (fun d => d ≠ '}')))).data ++
          renderAux lookup fuel rest2
      | [] => c :: renderAux lookup fuel rest
    else c :: renderAux lookup fuel rest

/-- Model of str.format on simple brace placeholders (line 144); a lookup
function supplies the substitution for each placeholder name (in the code
path in use, validation has ensured every placeholder is present in
filename_data, so str.format raises no KeyError). -/
def renderTemplate (t : String) (lookup : String → String) : String :=
  String.mk (renderAux lookup t.data.length t.data)

/-- filename_data for one (scenario, year) pair (line 143): the file's
category mapping, then the scenario code, the resolved scenario label and
the year inserted on top, in dict-literal order. -/
def filenameData (mapped : Dict String) (scenario label : String) (year : Nat) :
    Dict String :=
  dinsert "year" (toString year)
    (dinsert "ssp_full_name" label (dinsert "scenario" scenario mapped))

/-- Inner rename plan for one validated file (lines 140-147): one entry per
(year, scenario) loop iteration, keyed by the generated-output name and
mapping to the joined final path; the scenario label falls back to the raw
code when the scenario_mapping has no entry. -/
def innerPlan (dir t : String) (smap mapped : Dict String) : Dict String :=
  ALL_POSSIBLE_YEARS.foldl
    (fun acc year =>
      ALL_POSSIBLE_SCENARIOS.foldl
        (fun acc2 scenario =>
          dinsert (scenario ++ "_" ++ toString year ++ ".epw")
            (osJoin dir
              (renderTemplate t
                (fun n =>
                  (dlookup
                    (filenameData mapped scenario ((dlookup smap scenario).getD scenario)
                      year) n).getD "") ++ ".epw"))
            acc2)
        acc)
    []

/-- One iteration of the planning loop (lines 134-148) over the pair
(rename_plan so far, per-file planning errors surfaced so far): a file with
missing template keys is reported and contributes nothing; otherwise its
inner plan is inserted. -/
def planStep (dir t : String) (smap : Dict String)
    (st : Dict (Dict String) × List (String × Finset String)) (e : String × Dict String) :
    Dict (Dict String) × List (String × Finset String) :=
  if missingOf t e.2 = ∅ then (dinsert e.1 (innerPlan dir t smap e.2) st.1, st.2)
  else (st.1, st.2 ++ [(e.1, missingOf t e.2)])

/-- The planning loop over all mapped files, starting from an empty plan
(lines 127-148). -/
def buildPlan (dir t : String) (smap : Dict String)
    (entries : List (String × Dict String)) :
    Dict (Dict String) × List (String × Finset String) :=
  entries.foldl (planStep dir t smap) ([], [])

/-- STEP 2, preview_rename_plan (lines 119-149): guard that map_categories
ran, then plan over the merge of complete and incomplete stores. -/
def preview_rename_plan (epw_categories incomplete_epw_categories : Dict (Dict String))
    (final_output_dir output_filename_pattern : String) (scenario_mapping : Dict String) :
    Except String (Dict (Dict String) × List (String × Finset String)) :=
  if epw_categories.isEmpty && incomplete_epw_categories.isEmpty then
    .error "Please run map_categories first. No files were successfully mapped."
  else
    .ok (buildPlan final_output_dir output_filename_pattern scenario_mapping
      (dmerge epw_categories incomplete_epw_categories))

-- ---------------------------------------------------------------------------
-- STEP 3: execute_morphing and helpers (pyfwg_v10.py lines 151-220)
-- ---------------------------------------------------------------------------

/-- The FWG parameter set after merging overrides (lines 158-172), with the
two standard-deviation shifts kept as their Python str(float) renderings. -/
structure FwgParams where
  gcms : Option (List String)
  create_ensemble : Bool
  winter_sd_shift : String
  summer_sd_shift : String
  month_transition_hours : Int
  use_multithreading : Bool
  interpolation_method_id : Int
  limit_variables : Bool
  solar_hour_adjustment : Int
  diffuse_irradiation_model : Int
  uhi_options : String

/-- The defaults of the explicit keyword arguments of execute_morphing
(lines 158-163). -/
def default_fwg_params : FwgParams :=
  { gcms := none
    create_ensemble := true
    winter_sd_shift := "0.0"
    summer_sd_shift := "0.0"
    month_transition_hours := 72
    use_multithreading := true
    interpolation_method_id := 0
    limit_variables := true
    solar_hour_adjustment := 1
    diffuse_irradiation_model := 1
    uhi_options := "1:14:1" }

/-- str(b).lower() for a Python bool. -/
def pyBoolStr (b : Bool) : String := if b then "true" else "false"

/-- The command list of _execute_single_morph (lines 194-197); the gcms
fall back to DEFAULT_GCMS when absent or empty (Python or), and the
uhi_options string is always the final element. -/
def buildCommand (cwd jar : String) (p : FwgParams) (epwPath tempOutputDir : String) :
    List String :=
  ["java", "-cp", jar, "futureweathergenerator.Morph",
   abspath cwd epwPath,
   String.intercalate ","
     (match p.gcms with
      | some g => if g.isEmpty then DEFAULT_GCMS else g
      | none => DEFAULT_GCMS),
   if p.create_ensemble then "1" else "0",
   p.winter_sd_shift ++ ":" ++ p.summer_sd_shift,
   toString p.month_transition_hours,
   abspath cwd tempOutputDir ++ "/",
   pyBoolStr p.use_multithreading,
   toString p.interpolation_method_id,
   pyBoolStr p.limit_variables,
   toString p.solar_hour_adjustment,
   toString p.diffuse_irradiation_model,
   p.uhi_options]

/-- Outcome of one external invocation under subprocess.run with a timeout:
the process either completed with an exit code or exceeded the timeout. -/
inductive RunOutcome : Type
  | completed (exitCode : Int)
  | timedOut
deriving DecidableEq

/-- The Python exceptions relevant to the execution path. -/
inductive PyExn : Type
  | calledProcessError
  | timeoutExpired
deriving DecidableEq

/-- Model of subprocess.run(command, check := True, timeout := 600)
(line 200): a non-zero exit raises CalledProcessError, timeout expiry
raises TimeoutExpired. -/
def runChecked : RunOutcome → Except PyExn Unit
  | .completed e => if e = 0 then .ok () else .error .calledProcessError
  | .timedOut => .error .timeoutExpired

/-- _execute_single_morph (lines 191-204): the try block returns true on
success; the except clause catches only CalledProcessError, returning
false; any other exception propagates. -/
def execute_single_morph (outcome : RunOutcome) : Except PyExn Bool :=
  match runChecked outcome with
  | .ok _ => .ok true
  | .error .calledProcessError => .ok false
  | .error e => .error e

/-- The per-file loop of execute_morphing (lines 181-188), with the engine
outcome for each file supplied by an oracle: files absent from the rename
plan are skipped with a warning; an uncaught exception aborts the whole
loop; otherwise the (file, success) bookkeeping of the processed files is
returned in order. -/
def executeLoop (oc : String → RunOutcome) (plan : Dict (Dict String)) :
    List String → Except PyExn (List (String × Bool))
  | [] => .ok []
  | f :: rest =>
    if (dlookup plan f).isNone then executeLoop oc plan rest
    else
      match execute_single_morph (oc f) with
      | .ok b => (executeLoop oc plan rest).map (fun r => (f, b) :: r)
      | .error e => .error e

/-- Destination resolution of _process_generated_files for one generated
file name (lines 210-216): a planned name maps to its planned destination;
otherwise a statistics companion whose epw sibling is planned maps to the
sibling's destination with its extension replaced by .stat; anything else
is ignored. -/
def destinationFor (plan : Dict String) (generated : String) : Option String :=
  match dlookup plan generated with
  | some d => some d
  | none =>
    if strEndsWith generated ".stat" then
      match dlookup plan (replaceAll generated ".stat" ".epw") with
      | some d => some ((splitext d).1 ++ ".stat")
      | none => none
    else none

-- ---------------------------------------------------------------------------
-- Shared lemmas about the dict model
-- ---------------------------------------------------------------------------

theorem dlookup_dinsert_self {α : Type} (k : String) (v : α) (d : Dict α) :
    dlookup (dinsert k v d) k = some v := by
  induction d with
  | nil => simp [dinsert, dlookup]
  | cons p rest ih =>
    by_cases h : p.1 = k
    · simp [dinsert, h, dlookup]
    · simp [dinsert, h, dlookup, ih]

theorem dlookup_dinsert_ne {α : Type} {k k' : String} (v : α) (d : Dict α)
    (h : k' ≠ k) : dlookup (dinsert k v d) k' = dlookup d k' := by
  induction d with
  | nil => simp [dinsert, dlookup, Ne.symm h]
  | cons p rest ih =>
    by_cases hp : p.1 = k
    · simp [dinsert, hp, dlookup, Ne.symm h]
    · simp [dinsert, hp, dlookup, ih]

theorem dlookup_eq_none_of_not_mem {α : Type} {k : String} {d : Dict α}
    (h : k ∉ d.map Prod.fst) : dlookup d k = none := by
  induction d with
  | nil => simp [dlookup]
  | cons p rest ih =>
    simp only [List.map_cons, List.mem_cons] at h
    push_neg at h
    simp [dlookup, Ne.symm h.1, ih h.2]

theorem dinsert_eq_append {α : Type} {k : String} (v : α) {d : Dict α}
    (h : k ∉ d.map Prod.fst) : dinsert k v d = d ++ [(k, v)] := by
  induction d with
  | nil => simp [dinsert]
  | cons p rest ih =>
    simp only [List.map_cons, List.mem_cons] at h
    push_neg at h
    simp [dinsert, Ne.symm h.1, ih h.2]

-- ---------------------------------------------------------------------------
-- Shared lemmas about keyword extraction and groupdict normalization
-- ---------------------------------------------------------------------------

theorem firstHit_eq_find? (nameLower : String) (vks : List (String × List String)) :
    firstHit nameLower vks = (vks.find? (keywordHit nameLower)).map Prod.fst := by
  induction vks with
  | nil => simp [firstHit]
  | cons vk rest ih =>
    by_cases h : keywordHit nameLower vk
    · simp [firstHit, h, List.find?]
    · simp [firstHit, h, List.find?, ih]

theorem keywordExtract_go (name : String) (rules : KeywordMapping) :
    ∀ acc : Dict String, (∀ cr ∈ rules, cr.1 ∉ acc.map Prod.fst) →
      (rules.map Prod.fst).Nodup →
      rules.foldl
          (fun acc cr =>
            match firstHit (strLower name) cr.2 with
            | some v => dinsert cr.1 v acc
            | none => acc)
          acc
        = acc ++ rules.filterMap
            (fun cr => (firstHit (strLower name) cr.2).map (fun v => (cr.1, v))) := by
  induction rules with
  | nil => intro acc _ _; simp
  | cons cr rest ih =>
    intro acc hacc hnd
    simp only [List.map_cons, List.nodup_cons] at hnd
    rcases hh : firstHit (strLower name) cr.2 with _ | v
    · simp only [List.foldl_cons, hh, List.filterMap_cons, Option.map_none']
      exact ih acc (fun c hc => hacc c (List.mem_cons_of_mem _ hc)) hnd.2
    · have hfresh : cr.1 ∉ acc.map Prod.fst := hacc cr (List.mem_cons_self _ _)
      simp only [List.foldl_cons, hh, List.filterMap_cons, Option.map_some']
      rw [dinsert_eq_append v hfresh]
      rw [ih (acc ++ [(cr.1, v)]) ?_ hnd.2]
      · simp
      · intro c hc
        simp only [List.map_append, List.mem_append, List.map_cons, List.map_nil,
          List.mem_singleton]
        rintro (h1 | h2)
        · exact hacc c (List.mem_cons_of_mem _ hc) h1
        · exact hnd.1 (h2 ▸ List.mem_map_of_mem Prod.fst hc)

theorem keywordExtract_eq_filterMap (name : String) (rules : KeywordMapping)
    (hnd : (rules.map Prod.fst).Nodup) :
    keywordExtract name rules
      = rules.filterMap
          (fun cr => (firstHit (strLower name) cr.2).map (fun v => (cr.1, v))) := by
  have h := keywordExtract_go name rules [] (by simp) hnd
  simpa [keywordExtract] using h

theorem normalizeGroups_go (km : Option KeywordMapping)
    (gd : List (String × Option String)) :
    ∀ acc : Dict String, (∀ p ∈ gd, p.1 ∉ acc.map Prod.fst) →
      (gd.map Prod.fst).Nodup →
      gd.foldl
          (fun acc p =>
            match p.2 with
            | none => acc
            | some raw => dinsert p.1 (normalizeValue km p.1 raw) acc)
          acc
        = acc ++ gd.filterMap
            (fun p => p.2.map (fun raw => (p.1, normalizeValue km p.1 raw))) := by
  induction gd with
  | nil => intro acc _ _; simp
  | cons p rest ih =>
    intro acc hacc hnd
    simp only [List.map_cons, List.nodup_cons] at hnd
    rcases hp : p.2 with _ | raw
    · simp only [List.foldl_cons, hp, List.filterMap_cons, Option.map_none']
      exact ih acc (fun q hq => hacc q (List.mem_cons_of_mem _ hq)) hnd.2
    · have hfresh : p.1 ∉ acc.map Prod.fst := hacc p (List.mem_cons_self _ _)
      simp only [List.foldl_cons, hp, List.filterMap_cons, Option.map_some']
      rw [dinsert_eq_append _ hfresh]
      rw [ih (acc ++ [(p.1, normalizeValue km p.1 raw)]) ?_ hnd.2]
      · simp
      · intro q hq
        simp only [List.map_append, List.mem_append, List.map_cons, List.map_nil,
          List.mem_singleton]
        rintro (h1 | h2)
        · exact hacc q (List.mem_cons_of_mem _ hq) h1
        · exact hnd.1 (h2 ▸ List.mem_map_of_mem Prod.fst hq)

theorem normalizeGroups_eq_filterMap (km : Option KeywordMapping)
    (gd : List (String × Option String)) (hnd : (gd.map Prod.fst).Nodup) :
    normalizeGroups km gd
      = gd.filterMap (fun p => p.2.map (fun raw => (p.1, normalizeValue km p.1 raw))) := by
  have h := normalizeGroups_go km gd [] (by simp) hnd
  simpa [normalizeGroups] using h

-- ---------------------------------------------------------------------------
-- Shared lemmas about the planning fold
-- ---------------------------------------------------------------------------

theorem planFold_lookup (dir t : String) (smap : Dict String) :
    ∀ (l : List (String × Dict String)) (st : Dict (Dict String) × List (String × Finset String))
      (path : String), path ∉ l.map Prod.fst →
      dlookup (l.foldl (planStep dir t smap) st).1 path = dlookup st.1 path := by
  intro l
  induction l with
  | nil => intro st path _; rfl
  | cons e rest ih =>
    intro st path hpath
    simp only [List.map_cons, List.mem_cons] at hpath
    push_neg at hpath
    rw [List.foldl_cons, ih _ path hpath.2]
    unfold planStep
    split
    · exact dlookup_dinsert_ne _ _ hpath.1
    · rfl

theorem planFold_fst_indep (dir t : String) (smap : Dict String) :
    ∀ (l : List (String × Dict String)) (p : Dict (Dict String))
      (e1 e2 : List (String × Finset String)),
      (l.foldl (planStep dir t smap) (p, e1)).1 = (l.foldl (planStep dir t smap) (p, e2)).1 := by
  intro l
  induction l with
  | nil => intro p e1 e2; rfl
  | cons e rest ih =>
    intro p e1 e2
    simp only [List.foldl_cons]
    unfold planStep
    split
    · exact ih _ _ _
    · exact ih _ _ _

theorem planFold_snd_mono (dir t : String) (smap : Dict String) :
    ∀ (l : List (String × Dict String)) (st : Dict (Dict String) × List (String × Finset String)),
      ∃ r, (l.foldl (planStep dir t smap) st).2 = st.2 ++ r := by
  intro l
  induction l with
  | nil => intro st; exact ⟨[], by simp⟩
  | cons e rest ih =>
    intro st
    simp only [List.foldl_cons]
    unfold planStep
    split
    · exact ih _
    · rcases ih (st.1, st.2 ++ [(e.1, missingOf t e.2)]) with ⟨r, hr⟩
      exact ⟨(e.1, missingOf t e.2) :: r, by simpa using hr⟩

-- ---------------------------------------------------------------------------
-- Claim theorems
-- ---------------------------------------------------------------------------

/-- C2: template validation succeeds exactly when every placeholder parsed
from the template that is not one of the auto-supplied names is a key of
the file's category mapping; the city-and-year template passes with a
city-only mapping (year is auto-supplied) while the variant with a uhi
placeholder fails reporting exactly the missing name uhi; and a file whose
validation fails has no output path computed: its planning step leaves the
plan untouched. -/
theorem C2_validate_iff (t : String) (mapped : Dict String) :
    (missingOf t mapped = ∅ ↔
        ∀ p ∈ findPlaceholders t, p ∉ autoPlaceholders → p ∈ mapped.map Prod.fst)
    ∧ missingOf "{city}_{year}" [("city", "Seville")] = ∅
    ∧ missingOf "{city}_{uhi}_{year}" [("city", "Seville")] = {"uhi"}
    ∧ (∀ dir smap st path, missingOf t mapped ≠ ∅ →
        (planStep dir t smap st (path, mapped)).1 = st.1) := by
  refine ⟨?_, by decide, by decide, ?_⟩
  · unfold missingOf requiredFromMapping
    rw [Finset.sdiff_eq_empty_iff_subset, Finset.subset_iff]
    constructor
    · intro h p hp hauto
      have hm := h (Finset.mem_sdiff.mpr ⟨List.mem_toFinset.mpr hp, hauto⟩)
      simpa using hm
    · intro h x hx
      simp only [Finset.mem_sdiff, List.mem_toFinset] at hx
      exact List.mem_toFinset.mpr (h x hx.1 hx.2)
  · intro dir smap st path hmiss
    unfold planStep
    simp [hmiss]

/-- Witness for C2 at a concrete failing template and mapping. -/
theorem C2_witness :
    (planStep "/out" "{city}_{uhi}_{year}" [] ([], [])
        ("sevilla.epw", [("city", "Seville")])).1 = [] :=
  (C2_validate_iff "{city}_{uhi}_{year}" [("city", "Seville")]).2.2.2 "/out" [] ([], [])
    "sevilla.epw" (by decide)

/-- C5: a file whose category mapping misses a template-required
placeholder contributes no entry at all to the rename plan, the surfaced
error names exactly the missing placeholders, and the plan built over the
remaining files is unchanged - the failure neither aborts the batch nor
alters other files' entries. -/
theorem C5_per_file_planning_failure (dir t : String) (smap : Dict String)
    (pre post : List (String × Dict String)) (path : String) (mapped : Dict String)
    (hmiss : missingOf t mapped ≠ ∅)
    (hpath : path ∉ (pre ++ post).map Prod.fst) :
    (buildPlan dir t smap (pre ++ (path, mapped) :: post)).1
        = (buildPlan dir t smap (pre ++ post)).1
    ∧ (path, missingOf t mapped) ∈ (buildPlan dir t smap (pre ++ (path, mapped) :: post)).2
    ∧ dlookup (buildPlan dir t smap (pre ++ (path, mapped) :: post)).1 path = none := by
  rw [List.map_append, List.mem_append] at hpath
  push_neg at hpath
  unfold buildPlan
  rw [List.foldl_append, List.foldl_cons, List.foldl_append]
  have hstep :
      planStep dir t smap (pre.foldl (planStep dir t smap) ([], [])) (path, mapped)
        = ((pre.foldl (planStep dir t smap) ([], [])).1,
           (pre.foldl (planStep dir t smap) ([], [])).2 ++ [(path, missingOf t mapped)]) := by
    unfold planStep
    simp [hmiss]
  rw [hstep]
  refine ⟨?_, ?_, ?_⟩
  · exact planFold_fst_indep dir t smap post _ _ _
  · rcases planFold_snd_mono dir t smap post
        ((pre.foldl (planStep dir t smap) ([], [])).1,
         (pre.foldl (planStep dir t smap) ([], [])).2 ++ [(path, missingOf t mapped)]) with ⟨r, hr⟩
    rw [hr]
    simp
  · rw [planFold_lookup dir t smap post _ path hpath.2]
    rw [show ((pre.foldl (planStep dir t smap) ([], [])).1,
         (pre.foldl (planStep dir t smap) ([], [])).2 ++ [(path, missingOf t mapped)]).1
        = (pre.foldl (planStep dir t smap) ([], [])).1 from rfl]
    rw [planFold_lookup dir t smap pre ([], []) path hpath.1]
    rfl

/-- Witness for C5 at a concrete file missing the uhi placeholder. -/
theorem C5_witness :
    (buildPlan "/out" "{city}_{uhi}_{year}" []
          [("sevilla.epw", [("city", "Seville")])]).1
        = (buildPlan "/out" "{city}_{uhi}_{year}" [] []).1
    ∧ ("sevilla.epw", missingOf "{city}_{uhi}_{year}" [("city", "Seville")])
        ∈ (buildPlan "/out" "{city}_{uhi}_{year}" []
            [("sevilla.epw", [("city", "Seville")])]).2
    ∧ dlookup (buildPlan "/out" "{city}_{uhi}_{year}" []
          [("sevilla.epw", [("city", "Seville")])]).1 "sevilla.epw" = none := by
  have h := C5_per_file_planning_failure "/out" "{city}_{uhi}_{year}" [] [] []
      "sevilla.epw" [("city", "Seville")] (by decide) (by simp)
  simpa using h

/-- C1: every file passing template validation gets an inner plan with
exactly one entry per (scenario, year) pair of the built-in enumerations,
keyed by the generated-output name scenario-underscore-year-dot-epw, whose
value is the final output directory joined with the template rendered from
the file's category mapping merged with the scenario code, the resolved
scenario label (the scenario_mapping entry when present, the raw code
otherwise) and the year, with the epw extension appended. -/
theorem C1_rename_plan_entries (dir t : String) (smap : Dict String)
    (allMapped : List (String × Dict String)) (path : String) (mapped : Dict String)
    (hnd : (allMapped.map Prod.fst).Nodup)
    (hmem : (path, mapped) ∈ allMapped)
    (hok : missingOf t mapped = ∅) :
    dlookup (buildPlan dir t smap allMapped).1 path = some (innerPlan dir t smap mapped)
    ∧ (innerPlan dir t smap mapped).map Prod.fst
        = ALL_POSSIBLE_YEARS.flatMap
            (fun y => ALL_POSSIBLE_SCENARIOS.map (fun s => s ++ "_" ++ toString y ++ ".epw"))
    ∧ ∀ s ∈ ALL_POSSIBLE_SCENARIOS, ∀ y ∈ ALL_POSSIBLE_YEARS,
        dlookup (innerPlan dir t smap mapped) (s ++ "_" ++ toString y ++ ".epw")
          = some (osJoin dir
              (renderTemplate t
                (fun n =>
                  (dlookup (filenameData mapped s ((dlookup smap s).getD s) y) n).getD "")
                ++ ".epw")) := by
  obtain ⟨l1, l2, rfl⟩ := List.append_of_mem hmem
  have hnd2 : (path :: (l1.map Prod.fst ++ l2.map Prod.fst)).Nodup :=
    List.nodup_middle.mp (by simpa using hnd)
  rw [List.nodup_cons, List.mem_append] at hnd2
  push_neg at hnd2
  refine ⟨?_, rfl, ?_⟩
  · unfold buildPlan
    rw [List.foldl_append, List.foldl_cons]
    have hstep :
        planStep dir t smap (l1.foldl (planStep dir t smap) ([], [])) (path, mapped)
          = (dinsert path (innerPlan dir t smap mapped)
               (l1.foldl (planStep dir t smap) ([], [])).1,
             (l1.foldl (planStep dir t smap) ([], [])).2) := by
      unfold planStep
      simp [hok]
    rw [hstep, planFold_lookup dir t smap l2 _ path hnd2.1.2]
    exact dlookup_dinsert_self _ _ _
  · intro s hs y hy
    fin_cases hs <;> fin_cases hy <;> rfl

/-- Witness for C1 at the spec's concrete scenario. -/
theorem C1_witness :
    dlookup (buildPlan "/out" "{city}_{year}" []
          [("sevilla.epw", [("city", "Seville")])]).1 "sevilla.epw"
        = some (innerPlan "/out" "{city}_{year}" [] [("city", "Seville")])
    ∧ dlookup (innerPlan "/out" "{city}_{year}" [] [("city", "Seville")])
          "ssp245_2050.epw"
        = some "/out/Seville_2050.epw" := by
  have h := C1_rename_plan_entries "/out" "{city}_{year}" []
      [("sevilla.epw", [("city", "Seville")])] "sevilla.epw" [("city", "Seville")]
      (by simp) (by simp) (by decide)
  refine ⟨h.1, ?_⟩
  have h3 := h.2.2 "ssp245" (by decide) 2050 (by decide)
  exact h3.trans (by decide)

/-- C6: whenever the primary artifact scenario-underscore-year-dot-epw has
a planned destination in a file's inner plan, the companion statistics
name with the stat extension resolves to the same destination stem with
stat appended, derived from the primary's planned path (no template
re-rendering is involved in the derivation). -/
theorem C6_companion_stat (dir t : String) (smap mapped : Dict String)
    (s : String) (y : Nat)
    (hs : s ∈ ALL_POSSIBLE_SCENARIOS) (hy : y ∈ ALL_POSSIBLE_YEARS) :
    ∃ d, dlookup (innerPlan dir t smap mapped) (s ++ "_" ++ toString y ++ ".epw") = some d
      ∧ destinationFor (innerPlan dir t smap mapped) (s ++ "_" ++ toString y ++ ".stat")
          = some ((splitext d).1 ++ ".stat") := by
  fin_cases hs <;> fin_cases hy <;> exact ⟨_, rfl, rfl⟩

/-- Witness for C6 at the spec's concrete companion scenario. -/
theorem C6_witness :
    ∃ d, dlookup (innerPlan "/out" "{city}_{year}" [] [("city", "Seville")])
          "ssp245_2050.epw" = some d
      ∧ destinationFor (innerPlan "/out" "{city}_{year}" [] [("city", "Seville")])
          "ssp245_2050.stat" = some ((splitext d).1 ++ ".stat") :=
  C6_companion_stat "/out" "{city}_{year}" [] [("city", "Seville")] "ssp245" 2050
    (by decide) (by decide)

/-- Oracle for concrete map_categories runs: every path exists and
re.search of the sevilla city-capture pattern against the sevilla basename
returns its captured group. -/
def fsBoth : FsOracle where
  pathExists := fun _ => true
  reSearch := fun pat base =>
    if pat = "(?P<city>sevilla)" && base = "sevilla" then some [("city", some "sevilla")]
    else none

/-- C7 counterexample: in pyfwg_v10, supplying both the pattern strategy
and the keyword strategy raises no configuration error - map_categories
succeeds, using the pattern for extraction and the keyword mapping only to
normalize the captured value, contradicting the claim that supplying both
fails fast. -/
theorem C7_counterexample :
    map_categories fsBoth ["sevilla.epw"] (some "(?P<city>sevilla)")
        (some [("city", [("Seville", ["sevilla"])])])
      = .ok ([("sevilla.epw", [("city", "Seville")])], []) := rfl

/-- C7 amended: the configuration check fails fast - for every file list,
before any file is processed - exactly when neither strategy is truthy;
when at least one is supplied (including both at once), no error is raised
and the per-file loop runs. -/
theorem C7_amended (fs : FsOracle) (files : List String)
    (pattern : Option String) (km : Option KeywordMapping) :
    (optStrTruthy pattern = false ∧ optKmTruthy km = false ↔
        map_categories fs files pattern km
          = .error "You must provide at least one mapping method: input_filename_pattern or keyword_mapping.")
    ∧ (optStrTruthy pattern = true ∨ optKmTruthy km = true →
        map_categories fs files pattern km
          = .ok (files.foldl (processFile fs pattern km) ([], []))) := by
  unfold map_categories
  constructor
  · constructor
    · rintro ⟨h1, h2⟩
      simp [h1, h2]
    · intro h
      by_cases h1 : optStrTruthy pattern <;> by_cases h2 : optKmTruthy km <;>
        simp [h1, h2] at h ⊢
  · intro h
    rcases h with h | h <;> simp [h]

/-- Witness for C7 amended: with neither strategy supplied the
configuration error is raised before any file is touched. -/
theorem C7_witness :
    map_categories fsBoth [] none none
      = .error "You must provide at least one mapping method: input_filename_pattern or keyword_mapping." :=
  (C7_amended fsBoth [] none none).1.mp ⟨rfl, rfl⟩

/-- Engine-outcome oracle where the first file exceeds the timeout and the
second completes cleanly. -/
def ocTimeoutFirst : String → RunOutcome := fun f =>
  if f = "a.epw" then .timedOut else .completed 0

/-- Engine-outcome oracle where the first file exits non-zero and the
second completes cleanly. -/
def ocNonzeroFirst : String → RunOutcome := fun f =>
  if f = "a.epw" then .completed 1 else .completed 0

/-- A rename plan holding entries for both of the files above. -/
def planAB : Dict (Dict String) := [("a.epw", []), ("b.epw", [])]

/-- C8: how pyfwg_v10 diverges from the claim that timeout expiry is
treated identically to a non-zero exit.  The except clause of
_execute_single_morph catches only CalledProcessError, so a TimeoutExpired
propagates out of the loop and aborts the whole batch before the next file
runs, whereas a non-zero exit marks the file failed and lets the batch
complete its pass over all files. -/
theorem C8_timeout_divergence :
    executeLoop ocTimeoutFirst planAB ["a.epw", "b.epw"] = .error .timeoutExpired
    ∧ executeLoop ocNonzeroFirst planAB ["a.epw", "b.epw"]
        = .ok [("a.epw", false), ("b.epw", true)]
    ∧ execute_single_morph .timedOut = .error .timeoutExpired
    ∧ execute_single_morph (.completed 1) = .ok false := ⟨rfl, rfl, rfl, rfl⟩

/-- C9 counterexample: with the all-default parameter set - in which no
urban-heat-island adjustment has been requested by the caller - the built
command still carries the colon-joined UHI triple as its final, sixteenth
element, so the triple is not appended only when an adjustment is
requested. -/
theorem C9_counterexample :
    (buildCommand "/cwd" "/fwg.jar" default_fwg_params "in.epw" "tmp").length = 16
    ∧ (buildCommand "/cwd" "/fwg.jar" default_fwg_params "in.epw" "tmp").getLast?
        = some "1:14:1" := ⟨rfl, rfl⟩

/-- C9 amended: the invocation is a fixed sixteen-element argument list in
strict order - java, classpath flag, jar, main class, absolute input path,
comma-joined model identifiers, binary ensemble flag, winter:summer shift
pair, month-transition integer, absolute output directory ending with the
separator, lower-cased multithreading flag, interpolation selector,
lower-cased limit-variables flag, solar selector, irradiation selector,
and the colon-joined urban-heat-island triple, which is always appended at
the end regardless of whether an adjustment was requested. -/
theorem C9_command_layout (cwd jar : String) (p : FwgParams) (epw tmp : String)
    (hcwd : cwd.data.head? = some '/') :
    (buildCommand cwd jar p epw tmp).length = 16
    ∧ (buildCommand cwd jar p epw tmp).take 4 = ["java", "-cp", jar, "futureweathergenerator.Morph"]
    ∧ (buildCommand cwd jar p epw tmp).getD 4 "" = abspath cwd epw
    ∧ ((buildCommand cwd jar p epw tmp).getD 4 "").data.head? = some '/'
    ∧ (buildCommand cwd jar p epw tmp).getD 5 ""
        = String.intercalate ","
            (match p.gcms with
             | some g => if g.isEmpty then DEFAULT_GCMS else g
             | none => DEFAULT_GCMS)
    ∧ (buildCommand cwd jar p epw tmp).getD 6 "" = (if p.create_ensemble then "1" else "0")
    ∧ (buildCommand cwd jar p epw tmp).getD 7 "" = p.winter_sd_shift ++ ":" ++ p.summer_sd_shift
    ∧ (buildCommand cwd jar p epw tmp).getD 8 "" = toString p.month_transition_hours
    ∧ (buildCommand cwd jar p epw tmp).getD 9 "" = abspath cwd tmp ++ "/"
    ∧ ((buildCommand cwd jar p epw tmp).getD 9 "").data.getLast? = some '/'
    ∧ (buildCommand cwd jar p epw tmp).getD 10 "" = pyBoolStr p.use_multithreading
    ∧ (buildCommand cwd jar p epw tmp).getD 11 "" = toString p.interpolation_method_id
    ∧ (buildCommand cwd jar p epw tmp).getD 12 "" = pyBoolStr p.limit_variables
    ∧ (buildCommand cwd jar p epw tmp).getD 13 "" = toString p.solar_hour_adjustment
    ∧ (buildCommand cwd jar p epw tmp).getD 14 "" = toString p.diffuse_irradiation_model
    ∧ (buildCommand cwd jar p epw tmp).getLast? = some p.uhi_options := by
  have habs : ∀ q : String, (abspath cwd q).data.head? = some '/' := by
    intro q
    unfold abspath osJoin
    by_cases hq : q.data.head? = some '/'
    · simp [hq]
    · have hne : ¬cwd.data.isEmpty := by
        cases hc : cwd.data with
        | nil => rw [hc] at hcwd; simp at hcwd
        | cons a as => simp [hc]
      by_cases hl : cwd.data.getLast? = some '/'
      · simp [hq, hne, hl, hcwd]
      · simp [hq, hne, hl, hcwd]
  refine ⟨rfl, rfl, rfl, habs epw, rfl, rfl, rfl, rfl, rfl, ?_, rfl, rfl, rfl, rfl, rfl, rfl⟩
  show ((abspath cwd tmp ++ "/").data).getLast? = some '/'
  rw [String.data_append]
  simp

/-- Witness for C9 amended: the default invocation ends with the default
UHI triple and its output directory argument carries the separator. -/
theorem C9_witness :
    (buildCommand "/cwd" "/fwg.jar" default_fwg_params "in.epw" "tmp").getD 9 ""
        = abspath "/cwd" "tmp" ++ "/"
    ∧ (buildCommand "/cwd" "/fwg.jar" default_fwg_params "in.epw" "tmp").getLast?
        = some default_fwg_params.uhi_options := by
  have h := C9_command_layout "/cwd" "/fwg.jar" default_fwg_params "in.epw" "tmp" rfl
  exact ⟨h.2.2.2.2.2.2.2.2.1, h.2.2.2.2.2.2.2.2.2.2.2.2.2.2.2⟩

-- ---------------------------------------------------------------------------
-- Bridge between processFile and the spec-side classification
-- ---------------------------------------------------------------------------

theorem processFile_eq_classification (fs : FsOracle) (pattern : Option String)
    (km : Option KeywordMapping) (st : Dict (Dict String) × Dict (Dict String))
    (path : String) :
    processFile fs pattern km st path =
      match classification fs pattern km path with
      | none => st
      | some true => (dinsert path (extractedCategories fs pattern km path) st.1, st.2)
      | some false => (st.1, dinsert path (extractedCategories fs pattern km path) st.2) := by
  unfold processFile classification
  cases h1 : (!fs.pathExists path) with
  | true => simp [h1]
  | false =>
    simp only [h1, Bool.false_eq_true, if_false]
    cases h2 : (extractedCategories fs pattern km path).isEmpty with
    | true => simp [h2]
    | false =>
      simp only [h2, Bool.false_eq_true, if_false]
      cases h3 : (optKmTruthy km && !optStrTruthy pattern) with
      | false => simp [h3]
      | true =>
        simp only [h3, if_true]
        by_cases h4 : ((extractedCategories fs pattern km path).map Prod.fst).toFinset.card
            < ((km.getD []).map Prod.fst).toFinset.card
        · simp [h4]
        · simp [h4]

theorem classification_eq_none (fs : FsOracle) (pattern : Option String)
    (km : Option KeywordMapping) (p : String)
    (h : fs.pathExists p = false ∨ extractedCategories fs pattern km p = []) :
    classification fs pattern km p = none := by
  unfold classification
  rcases h with h | h
  · simp [h]
  · by_cases he : fs.pathExists p <;> simp [he, h]

/-- The invariant the map_categories loop maintains on the pair of stores:
every recorded path carries the classification matching its store. -/
def storeInv (fs : FsOracle) (pattern : Option String) (km : Option KeywordMapping)
    (st : Dict (Dict String) × Dict (Dict String)) : Prop :=
  ∀ p, ((dlookup st.1 p).isSome → classification fs pattern km p = some true)
     ∧ ((dlookup st.2 p).isSome → classification fs pattern km p = some false)

theorem storeInv_processFile (fs : FsOracle) (pattern : Option String)
    (km : Option KeywordMapping) (st : Dict (Dict String) × Dict (Dict String))
    (path : String) (h : storeInv fs pattern km st) :
    storeInv fs pattern km (processFile fs pattern km st path) := by
  rw [processFile_eq_classification]
  rcases hcl : classification fs pattern km path with _ | b
  · exact h
  · cases b
    · intro p
      refine ⟨fun hs => (h p).1 hs, fun hs => ?_⟩
      by_cases hp : p = path
      · rw [hp]; exact hcl
      · exact (h p).2 (by rwa [dlookup_dinsert_ne _ _ hp] at hs)
    · intro p
      refine ⟨fun hs => ?_, fun hs => (h p).2 hs⟩
      by_cases hp : p = path
      · rw [hp]; exact hcl
      · exact (h p).1 (by rwa [dlookup_dinsert_ne _ _ hp] at hs)

theorem storeInv_foldl (fs : FsOracle) (pattern : Option String)
    (km : Option KeywordMapping) (files : List String) :
    ∀ st, storeInv fs pattern km st →
      storeInv fs pattern km (files.foldl (processFile fs pattern km) st) := by
  induction files with
  | nil => intro st h; exact h
  | cons f rest ih =>
    intro st h
    exact ih _ (storeInv_processFile fs pattern km st f h)

/-- C10: after any successful map_categories call, no path is a key of
both the complete and the incomplete store, and a path that does not exist
on the filesystem or yields no categories is a key of neither. -/
theorem C10_store_disjointness (fs : FsOracle) (files : List String)
    (pattern : Option String) (km : Option KeywordMapping)
    (c i : Dict (Dict String)) (p : String)
    (h : map_categories fs files pattern km = .ok (c, i)) :
    (¬((dlookup c p).isSome ∧ (dlookup i p).isSome))
    ∧ ((fs.pathExists p = false ∨ extractedCategories fs pattern km p = []) →
        dlookup c p = none ∧ dlookup i p = none) := by
  unfold map_categories at h
  by_cases hc : (!optStrTruthy pattern && !optKmTruthy km) = true
  · rw [if_pos hc] at h
    cases h
  · rw [if_neg hc, Except.ok.injEq] at h
    have hinv := storeInv_foldl fs pattern km files ([], [])
      (fun p => ⟨by simp [dlookup], by simp [dlookup]⟩)
    rw [h] at hinv
    constructor
    · rintro ⟨h1, h2⟩
      have e1 := (hinv p).1 h1
      have e2 := (hinv p).2 h2
      rw [e1] at e2
      simp at e2
    · intro hn
      have hcl := classification_eq_none fs pattern km p hn
      constructor
      · by_cases hs : (dlookup c p).isSome
        · exact absurd ((hinv p).1 hs) (by simp [hcl])
        · exact Option.not_isSome_iff_eq_none.mp hs
      · by_cases hs : (dlookup i p).isSome
        · exact absurd ((hinv p).2 hs) (by simp [hcl])
        · exact Option.not_isSome_iff_eq_none.mp hs

/-- Witness for C10: in a concrete pattern-mode run, the unmatched second
file is a key of neither store. -/
theorem C10_witness :
    dlookup [("sevilla.epw", [("city", "sevilla")])] "other.epw" = none
    ∧ dlookup ([] : Dict (Dict String)) "other.epw" = none :=
  (C10_store_disjointness fsBoth ["sevilla.epw", "other.epw"] (some "(?P<city>sevilla)")
      none [("sevilla.epw", [("city", "sevilla")])] [] "other.epw" rfl).2 (Or.inr rfl)

/-- C3: keyword-strategy extraction scans categories and their canonical
values in configuration enumeration order, the first canonical value with
a case-insensitive keyword substring hit in the filename winning per
category; a file whose found key set is a strict subset of the declared
categories is recorded as incomplete, with the surfaced missing set
holding exactly the categories with no hit; one whose key set equals the
declared set is recorded as complete; and one with no hits at all is
recorded nowhere. -/
theorem C3_keyword_strategy (fs : FsOracle) (rules : KeywordMapping)
    (st : Dict (Dict String) × Dict (Dict String)) (path : String)
    (hex : fs.pathExists path = true)
    (hne : rules ≠ [])
    (hnd : (rules.map Prod.fst).Nodup) :
    keywordExtract (basename path) rules
        = rules.filterMap
            (fun cr => (cr.2.find? (keywordHit (strLower (basename path)))).map
              (fun vk => (cr.1, vk.1)))
    ∧ (∀ cr ∈ rules,
        (cr.1 ∈ missingCategories rules (keywordExtract (basename path) rules)
          ↔ cr.2.find? (keywordHit (strLower (basename path))) = none))
    ∧ (keywordExtract (basename path) rules = [] →
        processFile fs none (some rules) st path = st)
    ∧ (keywordExtract (basename path) rules ≠ [] →
        ((keywordExtract (basename path) rules).map Prod.fst).toFinset
            ⊂ (rules.map Prod.fst).toFinset →
        processFile fs none (some rules) st path
          = (st.1, dinsert path (keywordExtract (basename path) rules) st.2))
    ∧ (keywordExtract (basename path) rules ≠ [] →
        ((keywordExtract (basename path) rules).map Prod.fst).toFinset
            = (rules.map Prod.fst).toFinset →
        processFile fs none (some rules) st path
          = (dinsert path (keywordExtract (basename path) rules) st.1, st.2)) := by
  have hkey : keywordExtract (basename path) rules
      = rules.filterMap
          (fun cr => (cr.2.find? (keywordHit (strLower (basename path)))).map
            (fun vk => (cr.1, vk.1))) := by
    rw [keywordExtract_eq_filterMap _ _ hnd]
    congr 1
    funext cr
    rw [firstHit_eq_find?, Option.map_map]
    rfl
  have htru : optKmTruthy (some rules) = true := by
    cases rules with
    | nil => exact absurd rfl hne
    | cons a l => rfl
  have hext : extractedCategories fs none (some rules) path
      = keywordExtract (basename path) rules := by
    unfold extractedCategories
    simp [optStrTruthy, htru]
  refine ⟨hkey, ?_, ?_, ?_, ?_⟩
  · intro cr hcr
    have hdecl : cr.1 ∈ (rules.map Prod.fst).toFinset :=
      List.mem_toFinset.mpr (List.mem_map_of_mem Prod.fst hcr)
    unfold missingCategories
    rw [Finset.mem_sdiff]
    constructor
    · rintro ⟨-, hnot⟩
      rcases hfind : cr.2.find? (keywordHit (strLower (basename path))) with _ | vk
      · rfl
      · exfalso
        apply hnot
        rw [List.mem_toFinset, hkey]
        have hmemfm : (cr.1, vk.1) ∈ rules.filterMap
            (fun cr => (cr.2.find? (keywordHit (strLower (basename path)))).map
              (fun vk => (cr.1, vk.1))) :=
          List.mem_filterMap.mpr ⟨cr, hcr, by rw [hfind]; rfl⟩
        exact List.mem_map_of_mem Prod.fst hmemfm
    · intro hfind
      refine ⟨hdecl, fun hmem => ?_⟩
      rw [List.mem_toFinset, hkey] at hmem
      rcases List.mem_map.mp hmem with ⟨q, hq, hq1⟩
      rcases List.mem_filterMap.mp hq with ⟨cr2, hcr2, hg⟩
      rcases hfind2 : cr2.2.find? (keywordHit (strLower (basename path))) with _ | vk
      · rw [hfind2] at hg; cases hg
      · rw [hfind2] at hg
        have hq' : (cr2.1, vk.1) = q := Option.some.inj hg
        have hcc : cr2.1 = cr.1 := by rw [← hq1, ← hq']
        have hceq : cr2 = cr := List.inj_on_of_nodup_map hnd hcr2 hcr hcc
        rw [hceq] at hfind2
        rw [hfind2] at hfind
        cases hfind
  · intro hm
    unfold processFile
    simp [hex, hext, hm]
  · intro hm hss
    have hcard := Finset.card_lt_card hss
    have hne2 : (keywordExtract (basename path) rules).isEmpty = false := by
      rcases hke : keywordExtract (basename path) rules with _ | ⟨a, l⟩
      · exact absurd hke hm
      · rfl
    unfold processFile
    simp [hex, hext, hne2, htru, optStrTruthy, hcard]
  · intro hm heq
    have hncard : ¬(((keywordExtract (basename path) rules).map Prod.fst).toFinset.card
        < ((rules.map Prod.fst)).toFinset.card) := by
      rw [heq]
      exact lt_irrefl _
    have hne2 : (keywordExtract (basename path) rules).isEmpty = false := by
      rcases hke : keywordExtract (basename path) rules with _ | ⟨a, l⟩
      · exact absurd hke hm
      · rfl
    unfold processFile
    simp [hex, hext, hne2, htru, optStrTruthy, hncard]

/-- Witness for C3: a file hitting only the city category out of two
declared categories is recorded as incomplete. -/
theorem C3_witness :
    processFile fsBoth none
        (some [("city", [("Seville", ["sevilla"])]), ("uhi", [("UHI", ["uhi"])])])
        ([], []) "sevilla_plain.epw"
      = ([], [("sevilla_plain.epw", [("city", "Seville")])]) := by
  have h := C3_keyword_strategy fsBoth
      [("city", [("Seville", ["sevilla"])]), ("uhi", [("UHI", ["uhi"])])]
      ([], []) "sevilla_plain.epw" rfl (by decide) (by decide)
  exact (h.2.2.2.1 (by decide) (by decide)).trans (by decide)

/-- Oracle realizing the Python match of the optional-group pattern
against the string a: re.search succeeds while the only named group does
not participate, so the groupdict maps x to None. -/
def fsOptGroup : FsOracle where
  pathExists := fun _ => true
  reSearch := fun pat base =>
    if pat = "a(?P<x>b)?" && base = "a" then some [("x", none)] else none

/-- C4 counterexample: a pattern match in which no named group
participates (the optional-group pattern against the extension-stripped
basename a matches with groupdict mapping x to None) is not treated as
Complete - the file is recorded in neither store, exactly like an
unmatched file - refuting the claim that a match is always treated as
Complete. -/
theorem C4_counterexample :
    fsOptGroup.reSearch "a(?P<x>b)?" (splitext (basename "a.epw")).1 = some [("x", none)]
    ∧ processFile fsOptGroup (some "a(?P<x>b)?") none ([], []) "a.epw" = ([], [])
    ∧ map_categories fsOptGroup ["a.epw"] (some "a(?P<x>b)?") none = .ok ([], []) :=
  ⟨rfl, rfl, rfl⟩

/-- C4 amended: under the pattern strategy a non-matching file is left
unrecorded; on a match the normalized mapping's entries are exactly the
participating named groups in order, each value the raw captured text
unless the case-insensitive per-category normalization lookup resolves it
to a canonical value; the result is recorded as complete whenever that
mapping is nonempty, and a match whose named groups all failed to
participate is skipped like an unmatched file. -/
theorem C4_pattern_strategy (fs : FsOracle) (km : Option KeywordMapping)
    (st : Dict (Dict String) × Dict (Dict String)) (path pat : String)
    (hex : fs.pathExists path = true)
    (hpat : optStrTruthy (some pat) = true) :
    (fs.reSearch pat (splitext (basename path)).1 = none →
      processFile fs (some pat) km st path = st)
    ∧ ∀ gd, fs.reSearch pat (splitext (basename path)).1 = some gd →
        (gd.map Prod.fst).Nodup →
        normalizeGroups km gd
            = gd.filterMap (fun q => q.2.map (fun raw => (q.1, normalizeValue km q.1 raw)))
          ∧ (normalizeGroups km gd).map Prod.fst
            = gd.filterMap (fun q => q.2.map (fun _ => q.1))
          ∧ (normalizeGroups km gd ≠ [] →
              processFile fs (some pat) km st path
                = (dinsert path (normalizeGroups km gd) st.1, st.2))
          ∧ (normalizeGroups km gd = [] →
              processFile fs (some pat) km st path = st) := by
  constructor
  · intro hnone
    have hext : extractedCategories fs (some pat) km path = [] := by
      unfold extractedCategories
      simp [hpat, hnone]
    unfold processFile
    simp [hex, hext]
  · intro gd hgd hgnd
    have hext : extractedCategories fs (some pat) km path = normalizeGroups km gd := by
      unfold extractedCategories
      simp [hpat, hgd]
    have hfm := normalizeGroups_eq_filterMap km gd hgnd
    refine ⟨hfm, ?_, ?_, ?_⟩
    · rw [hfm, List.map_filterMap]
      congr 1
      funext q
      rcases q.2 with _ | raw <;> rfl
    · intro hne
      have hne2 : (normalizeGroups km gd).isEmpty = false := by
        rcases hke : normalizeGroups km gd with _ | ⟨a, l⟩
        · exact absurd hke hne
        · rfl
      unfold processFile
      simp [hex, hext, hne2, hpat]
    · intro hnil
      unfold processFile
      simp [hex, hext, hnil]

/-- Witness for C4 amended: the sevilla capture is normalized to Seville
and recorded as complete. -/
theorem C4_witness :
    processFile fsBoth (some "(?P<city>sevilla)")
        (some [("city", [("Seville", ["sevilla"])])]) ([], []) "sevilla.epw"
      = ([("sevilla.epw", [("city", "Seville")])], []) := by
  have h := C4_pattern_strategy fsBoth (some [("city", [("Seville", ["sevilla"])])])
      ([], []) "sevilla.epw" "(?P<city>sevilla)" rfl rfl
  exact ((h.2 [("city", some "sevilla")] rfl (by decide)).2.2.1 (by decide)).trans (by decide)

end Pyfwg
